import Mathlib

/-!
# Verification of the pyre-check client orchestration layer

This file gives a shallow embedding, in Lean, of the root/configuration
resolution, analysis-directory selection, filter-path computation, server
liveness derivation and top-level exit-code dispatch of the pyre-check
client (`client/__init__.py`, `client/pyre.py`), together with theorems
settling the specification claims about those operations.

Paths are modelled as the strings Python manipulates; `os.path` helpers
(`dirname`, `join`, `relpath`) are modelled after their POSIX semantics on
the (normalized, absolute) inputs the client feeds them.  The filesystem is
abstracted to the two marker predicates the walk in `switch_root` consults:
whether a directory holds a `.pyre_configuration` and whether it holds a
`.pyre_configuration.local`.
-/

namespace PyreClient

/-! ## POSIX path strings -/

/-- Strip trailing `'/'` characters, as Python's `head.rstrip('/')` does. -/
def rstripSlashes (l : List Char) : List Char :=
  (l.reverse.dropWhile (fun c => c = '/')).reverse

/-- `os.path.dirname` on the character list of a POSIX path: everything up
to the final `'/'`, with trailing slashes stripped unless the head consists
solely of slashes. -/
def dirnameChars (p : List Char) : List Char :=
  let head := (p.reverse.dropWhile (fun c => c ≠ '/')).reverse
  if head.isEmpty || head.all (fun c => c = '/') then head
  else rstripSlashes head

/-- `os.path.dirname` on path strings. -/
def dirname (p : String) : String :=
  String.mk (dirnameChars p.toList)

/-- Python's `str.startswith`: `s.startswith(pre)`. -/
def startswith (s pre : String) : Bool :=
  pre.toList.isPrefixOf s.toList

/-- `n`-fold application of `dirname`: the upward walk through parents. -/
def iterDirname : Nat → String → String
  | 0, d => d
  | n + 1, d => iterDirname n (dirname d)

/-- `Reaches d a`: directory `a` lies on the upward `dirname` walk starting
at `d` (so `a` is `d` itself or an ancestor directory of `d`). -/
def Reaches (d a : String) : Prop :=
  ∃ n, iterDirname n d = a

/-- Python's `str.endswith`: `s.endswith(suf)`. -/
def endswith (s suf : String) : Bool :=
  suf.toList.isSuffixOf s.toList

/-- Split a character list at `'/'` occurrences (keeping empty pieces, as
`str.split('/')` does). -/
def splitSlash : List Char → List (List Char)
  | [] => [[]]
  | c :: rest =>
    match splitSlash rest with
    | [] => [[]]
    | p :: ps => if c = '/' then [] :: p :: ps else (c :: p) :: ps

/-- The non-empty `'/'`-separated components of a path, as
`[x for x in p.split(sep) if x]` computes them in `posixpath.relpath`. -/
def splitPath (p : String) : List String :=
  ((splitSlash p.toList).filter (fun part => !part.isEmpty)).map String.mk

/-- Join path components with `'/'` separators. -/
def joinSlash : List String → String
  | [] => ""
  | [c] => c
  | c :: c' :: rest => c ++ "/" ++ joinSlash (c' :: rest)

/-- The length of the common prefix of two component lists, as
`len(commonprefix([start_list, path_list]))` computes it. -/
def commonPrefixLen : List String → List String → Nat
  | a :: as, b :: bs => if a = b then commonPrefixLen as bs + 1 else 0
  | _, _ => 0

/-- `os.path.relpath(path, start)` on the already-normalized absolute paths
the client feeds it (`posixpath.relpath` additionally calls `abspath` on
both arguments, which is the identity on such paths): take the non-empty
components of both, skip the common prefix, go up with `".."` once for each
remaining component of `start` and then down into the remaining components
of `path`. -/
def relpath (path start : String) : String :=
  let path_list := splitPath path
  let start_list := splitPath start
  let i := commonPrefixLen start_list path_list
  let rel_list := List.replicate (start_list.length - i) ".." ++ path_list.drop i
  if rel_list.isEmpty then "." else joinSlash rel_list

/-- `os.path.join(a, b)` for a single pair, per `posixpath.join`: an
absolute `b` replaces `a`; otherwise `b` is appended, inserting a `'/'`
unless `a` is empty or already ends with one. -/
def pyJoin (a b : String) : String :=
  if startswith b "/" then b
  else if a.toList.isEmpty || endswith a "/" then a ++ b
  else a ++ "/" ++ b

/-! ## `find_root`

`client.filesystem.find_root` itself is not part of the sources under
analysis (only its callers in `client/__init__.py` are).

Modelled from the spec: "given a starting directory, walk upward through
parent directories until a directory containing a project-configuration
marker file is found, or the filesystem root is reached.  Returns `None` if
not found."  The walk is fuelled; `dirname` strictly shortens a path until
its fixpoint, so fuel `d.length + 1` always outlasts the walk. -/

def find_root_fuelled (marker : String → Bool) : Nat → String → Option String
  | 0, _ => none
  | fuel + 1, current =>
    if marker current then some current
    else
      let parent := dirname current
      if parent = current then none
      else find_root_fuelled marker fuel parent

def find_root (marker : String → Bool) (directory : String) : Option String :=
  find_root_fuelled marker (directory.length + 1) directory

/-! ## `switch_root` (client/__init__.py, lines 110-138)

The filesystem is abstracted to the two marker predicates the function
consults: `globalMarker d` holds when directory `d` contains a
`.pyre_configuration` file, `localMarker d` when it contains a
`.pyre_configuration.local` file. -/

structure FS where
  globalMarker : String → Bool
  localMarker : String → Bool

/-- The fields of the `arguments` namespace that `switch_root` writes:
`original_directory`, `current_directory` and (possibly) `local_configuration`. -/
structure SwitchRootResult where
  original_directory : String
  current_directory : String
  local_configuration : Option String
deriving DecidableEq

/-- `switch_root(arguments)`, embedded as a function of the filesystem
markers, the process working directory (`os.getcwd()`) and the incoming
`arguments.local_configuration`.  Raising `EnvironmentException` is
modelled by `Except.error` carrying the offending parent root; the
`os.chdir(root)` side effect is reflected in the returned
`current_directory`.  (`None`-truthiness of the two optional roots is
modelled by `Option` matching; `find_root` never yields an empty path for
the absolute directories in play.) -/
def switch_root (fs : FS) (cwd : String) (local_configuration : Option String) :
    Except String SwitchRootResult :=
  let original_directory := cwd
  let global_root := find_root fs.globalMarker original_directory
  let root := global_root.getD original_directory
  let local_root := find_root fs.localMarker original_directory
  -- Check for illegal nested local configuration.
  match local_root with
  | none => .ok ⟨original_directory, root, local_configuration⟩
  | some l =>
    match find_root fs.localMarker (dirname l) with
    | some parent_local_root =>
        .error ("Local configuration is nested under another local configuration at `"
          ++ parent_local_root ++ "`.")
    | none =>
      -- If the global configuration root is deeper than local configuration, ignore local.
      let local_root' : Option String :=
        match global_root with
        | some g => if startswith g l then none else some l
        | none => some l
      let local_configuration' : Option String :=
        match local_root', local_configuration with
        | some l', none => some l'
        | _, _ => local_configuration
      .ok ⟨original_directory, root, local_configuration'⟩

/-! ### Concrete filesystems used as witnesses and counterexamples -/

/-- Project marker at `/repo`, local marker at `/repo/proj`:
the normal containment case. -/
def fsNormal : FS :=
  ⟨fun d => d == "/repo", fun d => d == "/repo/proj"⟩

/-- Project marker at `/a/b`, local marker at `/a`: inverted containment
(the project root is deeper than the local root). -/
def fsInverted : FS :=
  ⟨fun d => d == "/a/b", fun d => d == "/a"⟩

/-- Local markers at `/a` and at `/a/b`: a nested local configuration. -/
def fsNested : FS :=
  ⟨fun _ => false, fun d => d == "/a" || d == "/a/b"⟩

/-- Project marker and local marker in the very same directory `/x`. -/
def fsBoth : FS :=
  ⟨fun d => d == "/x", fun d => d == "/x"⟩

/-! ## `find_log_directory` (client/__init__.py, lines 141-154) -/

/-- `find_log_directory(arguments)`, embedded as a function of
`arguments.current_directory`, `arguments.local_configuration` and the set
of directories that already exist.  (In `main`, `switch_root` always runs
first, so the `if not arguments.current_directory` re-resolution guard
never fires and `current_directory` is taken as given.)  Returns the
derived `arguments.log_directory` together with the directories existing
after the `os.makedirs` call. -/
def find_log_directory (current_directory : String)
    (local_configuration : Option String) (existing : List String) :
    String × List String :=
  let log_directory := pyJoin current_directory ".pyre"
  let log_directory :=
    match local_configuration with
    | some lc => pyJoin log_directory (relpath lc current_directory)
    | none => log_directory
  (log_directory,
    if existing.contains log_directory then existing else log_directory :: existing)

/-! ## `resolve_analysis_directory` (client/__init__.py, lines 193-271)

`client/filesystem.py` (the `AnalysisDirectory` and
`SharedAnalysisDirectory` classes, `translate_path`/`translate_paths`) and
`client/buck.py` (`presumed_target_root`, `find_buck_root`, the two builder
classes) are not under the analysed sources; their constructor calls are
modelled as data, `translate_path` is modelled from the spec, and
`presumed_target_root` / `find_buck_root` are taken as parameters. -/

/-- The subcommand classes `resolve_analysis_directory` compares
`arguments.command` against. -/
inductive PyCommand where
  | Analyze
  | Check
  | Restart
  | Incremental
  | Start
  | Stop
  | Kill
  | Persistent
  | Initialize
  | Query
deriving DecidableEq

/-- The `argparse` namespace fields consulted by
`resolve_analysis_directory` and `_resolve_filter_paths`.
`--source-directory` and `--target` are `append` actions, so they are
`None` when not passed. -/
structure Arguments where
  source_directories : Option (List String)
  targets : Option (List String)
  filter_directory : Option String
  use_buck_builder : Bool
  use_legacy_builder : Bool
  build : Bool
  command : PyCommand
  original_directory : String
  current_directory : String
  buck_builder_binary : Option String
  buck_builder_target : Option String
  buck_builder_debug : Bool

/-- The effective configuration fields consulted here.  The `Configuration`
class (configuration.py) is not under the analysed sources; its fields are
modelled from the spec's data model as plain attributes, so reading
`configuration.source_directories` yields the stored list object itself
(Python attribute semantics). -/
structure Configuration where
  source_directories : List String
  targets : List String
  search_path : List String
  local_configuration_root : Option String
  use_buck_builder : Bool
  extensions : List String
deriving DecidableEq

/-- The two `BuildAction` strategies: `buck.SimpleBuckBuilder(build)` and
`buck.FastBuckBuilder(buck_root, buck_builder_binary, buck_builder_target,
debug_mode)`, modelled as data. -/
inductive BuckBuilder where
  | simple (build : Bool)
  | fast (buck_root : String) (buck_builder_binary : Option String)
      (buck_builder_target : Option String) (debug_mode : Bool)
deriving DecidableEq

/-- The two analysis-directory variants, modelled as the data their
constructors receive: `AnalysisDirectory(path, filter_paths, search_path)`
(Direct) and `SharedAnalysisDirectory(...)` (the shared overlay). -/
inductive AnalysisDirectory where
  | direct (path : String) (filter_paths : List String)
      (search_path : List String)
  | shared (source_directories : List String) (targets : List String)
      (buck_builder : BuckBuilder) (original_directory : String)
      (filter_paths : List String) (local_configuration_root : Option String)
      (extensions : List String) (search_path : List String) (isolate : Bool)
deriving DecidableEq

/-- Whether an analysis directory is the shared overlay variant. -/
def AnalysisDirectory.isShared : AnalysisDirectory → Bool
  | .shared .. => true
  | .direct .. => false

/-- The `BuildAction` stored in a shared analysis directory, if any. -/
def AnalysisDirectory.sharedBuilder : AnalysisDirectory → Option BuckBuilder
  | .shared _ _ b _ _ _ _ _ _ => some b
  | .direct .. => none

/-- The wrapped source directory of a Direct analysis directory, if any. -/
def AnalysisDirectory.directPath : AnalysisDirectory → Option String
  | .direct p _ _ => some p
  | .shared .. => none

/-- What `resolve_analysis_directory` leaves behind: the constructed
directory and the configuration as it stands after the call (Python list
aliasing lets the call mutate `configuration.source_directories`). -/
structure ResolveResult where
  directory : AnalysisDirectory
  configuration : Configuration
deriving DecidableEq

/-- Python truthiness of an optional list: `None` and `[]` are both falsy. -/
def listTruthy : Option (List String) → Bool
  | none => false
  | some l => !l.isEmpty

/-- Modelled from the spec: `filesystem.translate_path` is not under the
analysed sources; per the spec, filter paths are "translated to absolute
paths relative to the original invocation directory" — an absolute path is
unchanged and a relative one is joined onto that directory. -/
def translate_path (root path : String) : String :=
  if startswith path "/" then path else pyJoin root path

/-- Modelled from the spec: `filesystem.translate_paths` applies
`translate_path` to each filter path. -/
def translate_paths (paths : List String) (root : String) : List String :=
  paths.map (translate_path root)

/-- The source directories "in play" (client/__init__.py, lines 196-202):
only read from the configuration if no explicit source directories or
targets are passed in. -/
def sourceDirectoriesInPlay (arguments : Arguments)
    (configuration : Configuration) : List String :=
  if !listTruthy arguments.source_directories && !listTruthy arguments.targets
  then configuration.source_directories
  else arguments.source_directories.getD []

/-- The targets "in play" (client/__init__.py, lines 196-202). -/
def targetsInPlay (arguments : Arguments)
    (configuration : Configuration) : List String :=
  if !listTruthy arguments.source_directories && !listTruthy arguments.targets
  then configuration.targets
  else arguments.targets.getD []

/-- `_resolve_filter_paths(arguments, configuration)`
(client/__init__.py, lines 177-190), with `buck.presumed_target_root`
passed in as `ptr`. -/
def _resolve_filter_paths (ptr : String → String) (arguments : Arguments)
    (configuration : Configuration) : List String :=
  let filter_paths : List String :=
    if listTruthy arguments.source_directories || listTruthy arguments.targets then
      (if listTruthy arguments.source_directories
        then arguments.source_directories.getD [] else [])
      ++ (if listTruthy arguments.targets
        then (arguments.targets.getD []).map ptr else [])
    else
      match configuration.local_configuration_root with
      | some r => [r]
      | none => []
  translate_paths filter_paths arguments.original_directory

/-- `resolve_analysis_directory(arguments, commands, configuration,
isolate)` (client/__init__.py, lines 193-271).  `buck_root` is the result
of `buck.find_buck_root(os.getcwd())` (after `switch_root`, the working
directory is `arguments.current_directory`).  `source_directories.pop()`
removes the last element of the list in place and returns it; when the
list came from the configuration this mutates
`configuration.source_directories`, which the returned `ResolveResult`
records. -/
def resolve_analysis_directory (ptr : String → String)
    (buck_root : Option String) (arguments : Arguments)
    (configuration : Configuration) (isolate : Bool) :
    Except String ResolveResult :=
  let fromConfiguration :=
    !listTruthy arguments.source_directories && !listTruthy arguments.targets
  let source_directories := sourceDirectoriesInPlay arguments configuration
  let targets := targetsInPlay arguments configuration
  let filter_paths :=
    match arguments.filter_directory with
    | some d => [d]
    | none => _resolve_filter_paths ptr arguments configuration
  let local_configuration_root :=
    configuration.local_configuration_root.map
      (fun r => relpath r arguments.current_directory)
  let use_buck_builder :=
    (arguments.use_buck_builder || configuration.use_buck_builder)
      && !arguments.use_legacy_builder
  if h : source_directories.length = 1 ∧ targets.length = 0 then
    let popped := source_directories.getLast
      (List.ne_nil_of_length_pos (by omega))
    let configuration' :=
      if fromConfiguration then
        { configuration with
            source_directories := configuration.source_directories.dropLast }
      else configuration
    .ok ⟨.direct popped filter_paths configuration.search_path, configuration'⟩
  else
    let build := arguments.build
      || (arguments.command == PyCommand.Analyze
          || arguments.command == PyCommand.Check
          || arguments.command == PyCommand.Restart)
    if use_buck_builder then
      match buck_root with
      | none =>
          .error ("No Buck configuration at `" ++ arguments.current_directory
            ++ "` or any of its ancestors.")
      | some root =>
          .ok ⟨.shared source_directories targets
              (.fast root arguments.buck_builder_binary
                arguments.buck_builder_target arguments.buck_builder_debug)
              arguments.original_directory filter_paths
              local_configuration_root configuration.extensions
              configuration.search_path isolate,
            configuration⟩
    else
      .ok ⟨.shared source_directories targets (.simple build)
          arguments.original_directory filter_paths
          local_configuration_root configuration.extensions
          configuration.search_path isolate,
        configuration⟩

/-- Arguments passing nothing explicit: everything comes from the
configuration. -/
def argsPlain : Arguments where
  source_directories := none
  targets := none
  filter_directory := none
  use_buck_builder := false
  use_legacy_builder := false
  build := false
  command := PyCommand.Incremental
  original_directory := "/repo"
  current_directory := "/repo"
  buck_builder_binary := none
  buck_builder_target := none
  buck_builder_debug := false

/-- A configuration with a single source directory and no targets. -/
def confSingle : Configuration where
  source_directories := ["src"]
  targets := []
  search_path := []
  local_configuration_root := none
  use_buck_builder := false
  extensions := []

/-- Arguments requesting the accelerated (fast Buck) builder. -/
def argsBuck : Arguments :=
  { argsPlain with use_buck_builder := true }

/-- Arguments passing an explicit source directory and an explicit target. -/
def argsExplicit : Arguments :=
  { argsPlain with
      source_directories := some ["/repo/src"]
      targets := some ["//a:lib"] }

/-- A configuration with an active local configuration root. -/
def confLocal : Configuration :=
  { confSingle with local_configuration_root := some "/repo/proj" }

/-- A configuration with two build targets and no source directories. -/
def confTargets : Configuration where
  source_directories := []
  targets := ["//a:lib", "//b:lib"]
  search_path := []
  local_configuration_root := none
  use_buck_builder := false
  extensions := []

/-! ## Server liveness (`commands/command.py`, `Command._state`)

`commands/command.py` is not under the analysed sources — only its test
(`commands/tests/command_test.py`) is. -/

/-- The two server states; per the spec there is no third. -/
inductive State where
  | RUNNING
  | DEAD
deriving DecidableEq

/-- Numeric lock-file contents, as `int(file.read())` accepts them for a
pid file (a digit string; pid files carry no sign or whitespace). -/
def parse_pid (s : String) : Option Nat :=
  if !s.toList.isEmpty && s.toList.all Char.isDigit then
    some (s.toList.foldl (fun n c => n * 10 + (c.toNat - '0'.toNat)) 0)
  else none

/-- Modelled from the spec: `Command._state` (commands/command.py, absent
from the sources) derives liveness on demand from the per-project lock file
— "a lock file containing a non-numeric value, or no lock file at all, both
yield DEAD; a lock file containing the pid of a currently-running process
of the expected kind yields RUNNING".  The lock-file read is abstracted to
its optional contents and "live process of the expected kind" to a
predicate on pids. -/
def command_state (lock_file : Option String) (process_alive : Nat → Bool) : State :=
  match lock_file with
  | none => State.DEAD
  | some contents =>
    match parse_pid contents with
    | none => State.DEAD
    | some pid => if process_alive pid then State.RUNNING else State.DEAD

/-! ## Top-level exit-code dispatch (`client/pyre.py`, `main`) -/

/-- Modelled from the spec: the exit codes surfaced to the shell — "Exit
codes: SUCCESS, FAILURE (generic/environment error), BUCK_ERROR
(build-tool-specific failure) — exactly these three classes" (the
`ExitCode` enumeration itself lives in `commands/command.py`, which is not
under the analysed sources). -/
inductive ExitCode where
  | SUCCESS
  | FAILURE
  | BUCK_ERROR
deriving DecidableEq

/-- The exception classes distinguished by the `except` clauses of `main`. -/
inductive PyExc where
  | buckException
  | environmentException
  | clientException
  | otherException
  | keyboardInterrupt
deriving DecidableEq

/-- The Python class-hierarchy fact the dispatch depends on:
`KeyboardInterrupt` derives from `BaseException` but not from `Exception`,
so the catch-all `except Exception` clause does not catch it even though it
textually precedes `except KeyboardInterrupt` in `main`. -/
def isSubclassOfException : PyExc → Bool
  | .keyboardInterrupt => false
  | _ => true

/-- What the protected region of one `main` invocation did: either the
dispatched command completed with an exit code, or an exception escaped. -/
inductive MainOutcome where
  | completed (code : ExitCode)
  | raised (e : PyExc)

/-- The top-level `try/except` dispatch of `main` (pyre.py, lines 528-605):
clauses are tried in source order, each catching exactly the instances of
its class; `BuckException → BUCK_ERROR`, `EnvironmentException → FAILURE`,
`ClientException → FAILURE`, any other `Exception → FAILURE`,
`KeyboardInterrupt → SUCCESS`. -/
def main_exit_code : MainOutcome → ExitCode
  | .completed code => code
  | .raised e =>
    if e = .buckException then ExitCode.BUCK_ERROR
    else if e = .environmentException then ExitCode.FAILURE
    else if e = .clientException then ExitCode.FAILURE
    else if isSubclassOfException e then ExitCode.FAILURE
    else ExitCode.SUCCESS

/-! ### Basic lemmas about `dirname` and the upward walk -/

theorem rstripSlashes_prefixes (l : List Char) : rstripSlashes l <+: l := by
  have h : l.reverse.dropWhile (fun c => c = '/') <:+ l.reverse :=
    List.dropWhile_suffix _
  unfold rstripSlashes
  simpa using List.reverse_prefix.mpr h

theorem dirnameChars_prefixes (p : List Char) : dirnameChars p <+: p := by
  have hhead : (p.reverse.dropWhile (fun c => c ≠ '/')).reverse <+: p := by
    have h : p.reverse.dropWhile (fun c => c ≠ '/') <:+ p.reverse :=
      List.dropWhile_suffix _
    simpa using List.reverse_prefix.mpr h
  unfold dirnameChars
  dsimp only
  split
  · exact hhead
  · exact (rstripSlashes_prefixes _).trans hhead

theorem toList_dirname_prefixes (p : String) : (dirname p).toList <+: p.toList :=
  dirnameChars_prefixes p.toList

theorem string_eq_of_toList_eq {s t : String} (h : s.toList = t.toList) : s = t := by
  cases s; cases t; exact congrArg String.mk h

theorem dirname_length_le (p : String) : (dirname p).length ≤ p.length :=
  (toList_dirname_prefixes p).length_le

theorem dirname_length_lt {p : String} (h : dirname p ≠ p) :
    (dirname p).length < p.length := by
  have hpre := toList_dirname_prefixes p
  have hle := hpre.length_le
  rcases Nat.lt_or_ge (dirname p).toList.length p.toList.length with hlt | hge
  · exact hlt
  · exact absurd (string_eq_of_toList_eq (hpre.eq_of_length (Nat.le_antisymm hle hge)))
      h

theorem iterDirname_add (m n : Nat) (d : String) :
    iterDirname (m + n) d = iterDirname n (iterDirname m d) := by
  induction m generalizing d with
  | zero => rw [Nat.zero_add]; rfl
  | succ k ih =>
      have : k + 1 + n = (k + n) + 1 := by omega
      rw [this]
      show iterDirname (k + n) (dirname d) = _
      rw [ih (dirname d)]
      rfl

theorem iterDirname_fixpoint {d : String} (h : dirname d = d) (n : Nat) :
    iterDirname n d = d := by
  induction n with
  | zero => rfl
  | succ k ih => show iterDirname k (dirname d) = d; rw [h]; exact ih

theorem reaches_refl (d : String) : Reaches d d := ⟨0, rfl⟩

theorem reaches_trans {a b c : String} (h₁ : Reaches a b) (h₂ : Reaches b c) :
    Reaches a c := by
  obtain ⟨m, hm⟩ := h₁
  obtain ⟨n, hn⟩ := h₂
  exact ⟨m + n, by rw [iterDirname_add, hm, hn]⟩

theorem reaches_dirname_of_ne {d a : String} (h : Reaches d a) (hne : a ≠ d) :
    Reaches (dirname d) a := by
  obtain ⟨n, hn⟩ := h
  cases n with
  | zero => exact absurd (show d = a from hn).symm hne
  | succ k => exact ⟨k, hn⟩

theorem reaches_toList_prefixes {d a : String} (h : Reaches d a) :
    a.toList <+: d.toList := by
  obtain ⟨n, hn⟩ := h
  induction n generalizing d with
  | zero =>
      have he : d = a := hn
      rw [he]
  | succ k ih =>
      have hstep : iterDirname k (dirname d) = a := hn
      exact (ih hstep).trans (toList_dirname_prefixes d)

theorem reaches_length_lt {d a : String} (h : Reaches d a) (hne : a ≠ d) :
    a.length < d.length := by
  obtain ⟨n, hn⟩ := h
  induction n generalizing d with
  | zero => exact absurd (show d = a from hn).symm hne
  | succ k ih =>
      by_cases hfix : dirname d = d
      · have he : a = d := by
          rw [← hn]
          exact iterDirname_fixpoint hfix (k + 1)
        exact absurd he hne
      · have hstep : iterDirname k (dirname d) = a := hn
        by_cases had : a = dirname d
        · rw [had]; exact dirname_length_lt hfix
        · exact Nat.lt_trans (ih had hstep) (dirname_length_lt hfix)

theorem reaches_antisymm {a b : String} (h₁ : Reaches a b) (h₂ : Reaches b a) :
    a = b := by
  by_cases hab : a = b
  · exact hab
  · have h1 := reaches_length_lt h₁ (fun he => hab he.symm)
    have h2 := reaches_length_lt h₂ hab
    omega

/-! ### Lemmas about `find_root` -/

theorem find_root_fuelled_marks {marker : String → Bool} :
    ∀ {fuel d r}, find_root_fuelled marker fuel d = some r →
      marker r = true ∧ Reaches d r := by
  intro fuel
  induction fuel with
  | zero => intro d r h; simp [find_root_fuelled] at h
  | succ k ih =>
      intro d r h
      by_cases hm : marker d
      · simp [find_root_fuelled, hm] at h
        exact ⟨h ▸ hm, h ▸ reaches_refl d⟩
      · by_cases hfix : dirname d = d
        · simp [find_root_fuelled, hm, hfix] at h
        · simp only [find_root_fuelled, hm, Bool.false_eq_true, if_false, hfix,
            if_neg hfix] at h
          obtain ⟨hmark, hreach⟩ := ih h
          exact ⟨hmark, reaches_trans ⟨1, rfl⟩ hreach⟩

theorem find_root_marks {marker : String → Bool} {d r : String}
    (h : find_root marker d = some r) : marker r = true ∧ Reaches d r :=
  find_root_fuelled_marks h

theorem find_root_fuelled_first {marker : String → Bool} {a : String}
    (hmark : marker a = true) :
    ∀ {fuel d r}, find_root_fuelled marker fuel d = some r →
      Reaches d a → Reaches r a := by
  intro fuel
  induction fuel with
  | zero => intro d r h _; simp [find_root_fuelled] at h
  | succ k ih =>
      intro d r h hda
      by_cases hm : marker d
      · simp [find_root_fuelled, hm] at h
        exact h ▸ hda
      · by_cases hfix : dirname d = d
        · simp [find_root_fuelled, hm, hfix] at h
        · simp only [find_root_fuelled, hm, Bool.false_eq_true, if_false,
            if_neg hfix] at h
          have hne : a ≠ d := by
            intro he; rw [he] at hmark; rw [hmark] at hm; exact hm rfl
          exact ih h (reaches_dirname_of_ne hda hne)

theorem find_root_first {marker : String → Bool} {d r a : String}
    (h : find_root marker d = some r) (hmark : marker a = true)
    (hda : Reaches d a) : Reaches r a :=
  find_root_fuelled_first hmark h hda

theorem reaches_within_length {d a : String} (h : Reaches d a) :
    ∃ n ≤ d.length, iterDirname n d = a := by
  obtain ⟨n₀, hn₀⟩ := h
  induction n₀ generalizing d with
  | zero => exact ⟨0, Nat.zero_le _, hn₀⟩
  | succ k ih =>
      by_cases hfix : dirname d = d
      · refine ⟨0, Nat.zero_le _, ?_⟩
        rw [← hn₀]; exact (iterDirname_fixpoint hfix (k + 1)).symm ▸ rfl
      · have hstep : iterDirname k (dirname d) = a := hn₀
        obtain ⟨n, hle, hn⟩ := ih hstep
        refine ⟨n + 1, ?_, ?_⟩
        · have := dirname_length_lt hfix
          omega
        · show iterDirname n (dirname d) = a
          exact hn

theorem find_root_fuelled_finds {marker : String → Bool} {a : String}
    (hmark : marker a = true) :
    ∀ {n fuel d}, n < fuel → iterDirname n d = a →
      ∃ r, find_root_fuelled marker fuel d = some r := by
  intro n
  induction n with
  | zero =>
      intro fuel d hlt hit
      cases fuel with
      | zero => omega
      | succ k =>
          have : d = a := hit
          simp [find_root_fuelled, this, hmark]
  | succ m ih =>
      intro fuel d hlt hit
      cases fuel with
      | zero => omega
      | succ k =>
          by_cases hm : marker d
          · exact ⟨d, by simp [find_root_fuelled, hm]⟩
          · by_cases hfix : dirname d = d
            · exfalso
              have : a = d := by rw [← hit]; exact iterDirname_fixpoint hfix (m + 1)
              rw [this] at hmark; rw [hmark] at hm; exact hm rfl
            · have hstep : iterDirname m (dirname d) = a := hit
              obtain ⟨r, hr⟩ := @ih k (dirname d) (by omega) hstep
              refine ⟨r, ?_⟩
              simp only [find_root_fuelled, hm, Bool.false_eq_true, if_false,
                if_neg hfix]
              exact hr

theorem find_root_finds {marker : String → Bool} {d a : String}
    (hmark : marker a = true) (hda : Reaches d a) :
    ∃ r, find_root marker d = some r := by
  obtain ⟨n, hle, hn⟩ := reaches_within_length hda
  exact find_root_fuelled_finds hmark (by omega) hn

/-! ### `startswith` and the ancestor relation -/

theorem string_length_toList (s : String) : s.toList.length = s.length := rfl

theorem startswith_iff {s pre : String} :
    startswith s pre = true ↔ pre.toList <+: s.toList := by
  simp [startswith]

theorem startswith_of_reaches {g l : String} (h : Reaches g l) :
    startswith g l = true :=
  startswith_iff.mpr (reaches_toList_prefixes h)

theorem startswith_eq_false_of_strict_ancestor {g l : String}
    (h : Reaches l g) (hne : g ≠ l) : startswith g l = false := by
  have hlt : g.length < l.length := reaches_length_lt h hne
  cases hst : startswith g l with
  | false => rfl
  | true =>
      have hpre := startswith_iff.mp hst
      have hle : l.toList.length ≤ g.toList.length := hpre.length_le
      rw [string_length_toList, string_length_toList] at hle
      omega

/-! ### Claims C2, C3, C10: root resolution -/

/-- Claim C2 (as stated, refuted): "for every directory tree in which a
local-configuration marker is nested inside another local-configuration
marker, root resolution raises a fatal configuration error."  Counterexample:
the tree `fsNested` carries local markers at `/a` and at `/a/b` — a marker
nested inside another — yet `switch_root` invoked from `/a` (which only sees
the outer marker on its upward walk) succeeds and activates `/a` as the
local configuration. -/
theorem claim_C2_counterexample :
    fsNested.localMarker "/a" = true ∧
    fsNested.localMarker "/a/b" = true ∧
    Reaches "/a/b" "/a" ∧ ("/a" : String) ≠ "/a/b" ∧
    switch_root fsNested "/a" none =
      .ok ⟨"/a", "/a", some "/a"⟩ :=
  ⟨rfl, rfl, ⟨1, rfl⟩, by decide, rfl⟩

/-- Claim C2 (amended): whenever the invocation's working directory lies at or
below the deeper of two nested local-configuration markers, root resolution
raises the nesting `EnvironmentException` and the operation does not
proceed; a nesting that is not on the invocation's upward walk is not
detected (see the counterexample). -/
theorem claim_C2_nested_local_raises (fs : FS) (cwd outer inner : String)
    (arg : Option String)
    (houter : fs.localMarker outer = true)
    (hinner : fs.localMarker inner = true)
    (hnested : Reaches inner outer)
    (hne : outer ≠ inner)
    (hcwd : Reaches cwd inner) :
    ∃ e, switch_root fs cwd arg = .error e := by
  obtain ⟨l, hl⟩ := find_root_finds hinner hcwd
  have hlinner : Reaches l inner := find_root_first hl hinner hcwd
  have hlouter : Reaches l outer := reaches_trans hlinner hnested
  have hlne : outer ≠ l := by
    intro he
    rw [← he] at hlinner
    exact hne (reaches_antisymm hnested hlinner).symm
  have hstep : Reaches (dirname l) outer := reaches_dirname_of_ne hlouter hlne
  obtain ⟨p, hp⟩ := find_root_finds houter hstep
  refine ⟨"Local configuration is nested under another local configuration at `"
    ++ p ++ "`.", ?_⟩
  simp [switch_root, hl, hp]

theorem claim_C2_witness :
    ∃ e, switch_root fsNested "/a/b/c" none = .error e :=
  claim_C2_nested_local_raises fsNested "/a/b/c" "/a" "/a/b" none
    rfl rfl ⟨1, rfl⟩ (by decide) ⟨1, rfl⟩

/-- Claim C3: with a resolved project root `g` and a resolved local root `l`
(and no nested local configuration above `l`): if the project root is an
ancestor of the local root (normal containment), the local configuration is
honored — `l` becomes the active local configuration when none was passed
explicitly; if containment is inverted — the project root is deeper than
the local root — the local root is silently discarded and the global
configuration governs (`local_configuration` stays `none`). -/
theorem claim_C3_containment (fs : FS) (cwd g l : String)
    (hg : find_root fs.globalMarker cwd = some g)
    (hl : find_root fs.localMarker cwd = some l)
    (hnest : find_root fs.localMarker (dirname l) = none) :
    (Reaches l g → g ≠ l →
      switch_root fs cwd none = .ok ⟨cwd, g, some l⟩) ∧
    (Reaches g l → g ≠ l →
      switch_root fs cwd none = .ok ⟨cwd, g, none⟩) := by
  constructor
  · intro hanc hne
    have hsw : startswith g l = false := startswith_eq_false_of_strict_ancestor hanc hne
    simp [switch_root, hg, hl, hnest, hsw]
  · intro hanc hne
    have hsw : startswith g l = true := startswith_of_reaches hanc
    simp [switch_root, hg, hl, hnest, hsw]

theorem claim_C3_witness :
    switch_root fsNormal "/repo/proj/sub" none =
      .ok ⟨"/repo/proj/sub", "/repo", some "/repo/proj"⟩ ∧
    switch_root fsInverted "/a/b/c" none =
      .ok ⟨"/a/b/c", "/a/b", none⟩ :=
  ⟨(claim_C3_containment fsNormal "/repo/proj/sub" "/repo" "/repo/proj"
      rfl rfl rfl).1 ⟨1, rfl⟩ (by decide),
   (claim_C3_containment fsInverted "/a/b/c" "/a/b" "/a"
      rfl rfl rfl).2 ⟨1, rfl⟩ (by decide)⟩

/-- Claim C10: the inverted-containment test in `switch_root` is the string
prefix check `global_root.startswith(local_root)`.  Consequently (a) a local
root string-equal to the project root is discarded — proved for every
filesystem in which both walks resolve to the same directory — and (b) the
check also fires on a pure string prefix that is not an actual ancestor
directory: `"/repository".startswith("/repo")` holds although `/repo` is
not on the upward directory walk from `/repository`. -/
theorem claim_C10_startswith_discard :
    (∀ (fs : FS) (cwd r : String),
      find_root fs.globalMarker cwd = some r →
      find_root fs.localMarker cwd = some r →
      find_root fs.localMarker (dirname r) = none →
      switch_root fs cwd none = .ok ⟨cwd, r, none⟩) ∧
    startswith "/repository" "/repo" = true ∧
    ¬ Reaches "/repository" "/repo" := by
  refine ⟨?_, by decide, ?_⟩
  · intro fs cwd r hg hl hnest
    have hsw : startswith r r = true := startswith_of_reaches (reaches_refl r)
    simp [switch_root, hg, hl, hnest, hsw]
  · rintro ⟨n, hn⟩
    cases n with
    | zero => exact absurd (show ("/repository" : String) = "/repo" from hn) (by decide)
    | succ k =>
        have h1 : iterDirname (k + 1) "/repository" = iterDirname k "/" := by
          show iterDirname k (dirname "/repository") = iterDirname k "/"
          rfl
        have h2 : iterDirname k "/" = "/" := iterDirname_fixpoint rfl k
        rw [h1, h2] at hn
        exact absurd hn (by decide)

theorem claim_C10_witness :
    switch_root fsBoth "/x/sub" none = .ok ⟨"/x/sub", "/x", none⟩ :=
  claim_C10_startswith_discard.1 fsBoth "/x/sub" "/x" rfl rfl rfl

/-! ### Claim C5: server liveness -/

/-- Claim C5: liveness is derived on demand from the per-project lock file:
no lock file, or a lock file with non-numeric contents, yields `DEAD`; a
lock file holding the pid of a currently-running process of the expected
kind yields `RUNNING`; and every derived state is one of exactly these two
— there is no third state. -/
theorem claim_C5_liveness :
    (∀ alive, command_state none alive = State.DEAD) ∧
    (∀ s alive, parse_pid s = none → command_state (some s) alive = State.DEAD) ∧
    (∀ s pid alive, parse_pid s = some pid → alive pid = true →
      command_state (some s) alive = State.RUNNING) ∧
    (∀ lock alive, command_state lock alive = State.RUNNING ∨
      command_state lock alive = State.DEAD) := by
  refine ⟨fun _ => rfl, ?_, ?_, ?_⟩
  · intro s alive h
    simp [command_state, h]
  · intro s pid alive h ha
    simp [command_state, h, ha]
  · intro lock alive
    cases lock with
    | none => exact Or.inr rfl
    | some s =>
        cases h : parse_pid s with
        | none => exact Or.inr (by simp [command_state, h])
        | some pid =>
            by_cases ha : alive pid
            · exact Or.inl (by simp [command_state, h, ha])
            · exact Or.inr (by simp [command_state, h, ha])

/-- Mirrors `CommandTest.test_state`: lock file `"1"` with pid 1 alive is
RUNNING; lock file `"derp"` is DEAD; and no lock file is DEAD. -/
theorem claim_C5_witness :
    command_state (some "1") (fun pid => pid == 1) = State.RUNNING ∧
    command_state (some "derp") (fun pid => pid == 1) = State.DEAD ∧
    command_state none (fun pid => pid == 1) = State.DEAD :=
  ⟨claim_C5_liveness.2.2.1 "1" 1 _ (by decide) (by decide),
   claim_C5_liveness.2.1 "derp" _ (by decide),
   claim_C5_liveness.1 _⟩

/-! ### Claim C9: exit codes -/

/-- Claim C9: the top level of `main` decides exactly three exit-code
classes: a build-tool exception yields BUCK_ERROR, a user interruption
(KeyboardInterrupt) yields SUCCESS rather than FAILURE, every other caught
exception (environment, client or uncategorized) yields FAILURE, and every
invocation outcome maps to one of these three codes. -/
theorem claim_C9_exit_codes :
    main_exit_code (.raised .buckException) = ExitCode.BUCK_ERROR ∧
    main_exit_code (.raised .keyboardInterrupt) = ExitCode.SUCCESS ∧
    (∀ e, e ≠ PyExc.buckException → e ≠ PyExc.keyboardInterrupt →
      main_exit_code (.raised e) = ExitCode.FAILURE) ∧
    (∀ o, main_exit_code o = ExitCode.SUCCESS ∨
      main_exit_code o = ExitCode.FAILURE ∨
      main_exit_code o = ExitCode.BUCK_ERROR) := by
  refine ⟨rfl, rfl, ?_, ?_⟩
  · intro e h1 h2
    cases e
    · exact absurd rfl h1
    · rfl
    · rfl
    · rfl
    · exact absurd rfl h2
  · intro o
    rcases o with code | e
    · cases code
      · exact Or.inl rfl
      · exact Or.inr (Or.inl rfl)
      · exact Or.inr (Or.inr rfl)
    · cases e
      · exact Or.inr (Or.inr rfl)
      · exact Or.inr (Or.inl rfl)
      · exact Or.inr (Or.inl rfl)
      · exact Or.inr (Or.inl rfl)
      · exact Or.inl rfl

theorem claim_C9_witness :
    main_exit_code (.raised .environmentException) = ExitCode.FAILURE ∧
    main_exit_code (.raised .clientException) = ExitCode.FAILURE ∧
    main_exit_code (.raised .otherException) = ExitCode.FAILURE :=
  ⟨claim_C9_exit_codes.2.2.1 _ (by decide) (by decide),
   claim_C9_exit_codes.2.2.1 _ (by decide) (by decide),
   claim_C9_exit_codes.2.2.1 _ (by decide) (by decide)⟩

/-! ### Claims C1, C4, C7, C8: analysis-directory resolution -/

theorem getD_nil_of_not_listTruthy {o : Option (List String)}
    (h : listTruthy o = false) : o.getD [] = [] := by
  cases o with
  | none => rfl
  | some l =>
      cases l with
      | nil => rfl
      | cons a as => simp [listTruthy] at h

/-- Claim C1: with the source directories and targets in play (drawn from
the invocation when explicit ones were passed, otherwise from the
configuration), exactly one source directory and zero targets yield the
Direct variant wrapping exactly that path; two or more source directories
or a non-empty target set yield the shared (Overlay) variant whenever a
directory is constructed at all. -/
theorem claim_C1_selection (ptr : String → String) (buck_root : Option String)
    (arguments : Arguments) (configuration : Configuration) (isolate : Bool) :
    (∀ d, sourceDirectoriesInPlay arguments configuration = [d] →
      targetsInPlay arguments configuration = [] →
      ∃ r, resolve_analysis_directory ptr buck_root arguments configuration isolate
          = .ok r ∧
        r.directory.directPath = some d) ∧
    ((2 ≤ (sourceDirectoriesInPlay arguments configuration).length ∨
      targetsInPlay arguments configuration ≠ []) →
      ∀ r, resolve_analysis_directory ptr buck_root arguments configuration isolate
          = .ok r →
        r.directory.isShared = true) := by
  constructor
  · intro d hdirs htargets
    have hcond : (sourceDirectoriesInPlay arguments configuration).length = 1 ∧
        (targetsInPlay arguments configuration).length = 0 := by
      rw [hdirs, htargets]; exact ⟨rfl, rfl⟩
    simp only [resolve_analysis_directory]
    rw [dif_pos hcond]
    refine ⟨_, rfl, ?_⟩
    simp [AnalysisDirectory.directPath, hdirs]
  · intro hbig r hr
    have hncond : ¬((sourceDirectoriesInPlay arguments configuration).length = 1 ∧
        (targetsInPlay arguments configuration).length = 0) := by
      rcases hbig with h2 | ht
      · intro hc; omega
      · intro hc; exact ht (List.eq_nil_of_length_eq_zero hc.2)
    simp only [resolve_analysis_directory] at hr
    rw [dif_neg hncond] at hr
    split at hr
    · split at hr
      · exact absurd hr (by simp)
      · cases hr
        rfl
    · cases hr
      rfl

theorem claim_C1_witness :
    (∃ r, resolve_analysis_directory id none argsPlain confSingle false = .ok r ∧
      r.directory.directPath = some "src") ∧
    (∀ r, resolve_analysis_directory id none argsPlain confTargets false = .ok r →
      r.directory.isShared = true) :=
  ⟨(claim_C1_selection id none argsPlain confSingle false).1 "src"
      (by decide) (by decide),
   (claim_C1_selection id none argsPlain confTargets false).2
      (Or.inr (by decide))⟩

/-- Claim C4: in the overlay branch, exactly one BuildAction is chosen per
invocation, never both — the accelerated (fast Buck) builder exactly when
the use-accelerated flag is set on the invocation or in the configuration
and not overridden by the use-legacy flag; and if the accelerated builder
is selected but no build-tool root is discoverable, resolution raises the
fatal environment error, so no directory is constructed and (in `main`) the
invocation aborts before any command contacts a daemon. -/
theorem claim_C4_build_action (ptr : String → String) (buck_root : Option String)
    (arguments : Arguments) (configuration : Configuration) (isolate : Bool)
    (hoverlay : ¬((sourceDirectoriesInPlay arguments configuration).length = 1 ∧
      (targetsInPlay arguments configuration).length = 0)) :
    (((arguments.use_buck_builder || configuration.use_buck_builder)
        && !arguments.use_legacy_builder) = true →
      (buck_root = none →
        resolve_analysis_directory ptr buck_root arguments configuration isolate =
          .error ("No Buck configuration at `" ++ arguments.current_directory
            ++ "` or any of its ancestors.")) ∧
      (∀ root, buck_root = some root →
        ∃ r, resolve_analysis_directory ptr buck_root arguments configuration isolate
            = .ok r ∧
          r.directory.sharedBuilder = some (.fast root arguments.buck_builder_binary
            arguments.buck_builder_target arguments.buck_builder_debug))) ∧
    (((arguments.use_buck_builder || configuration.use_buck_builder)
        && !arguments.use_legacy_builder) = false →
      ∃ r, resolve_analysis_directory ptr buck_root arguments configuration isolate
          = .ok r ∧
        r.directory.sharedBuilder = some (.simple (arguments.build
          || (arguments.command == PyCommand.Analyze
              || arguments.command == PyCommand.Check
              || arguments.command == PyCommand.Restart)))) := by
  constructor
  · intro hflag
    constructor
    · intro hroot
      simp only [resolve_analysis_directory]
      rw [dif_neg hoverlay, if_pos hflag, hroot]
    · intro root hroot
      simp only [resolve_analysis_directory]
      rw [dif_neg hoverlay, if_pos hflag, hroot]
      exact ⟨_, rfl, rfl⟩
  · intro hflag
    simp only [resolve_analysis_directory]
    rw [dif_neg hoverlay, if_neg (by rw [hflag]; exact Bool.false_ne_true)]
    exact ⟨_, rfl, rfl⟩

theorem claim_C4_witness :
    resolve_analysis_directory id none argsBuck confTargets false =
      .error ("No Buck configuration at `" ++ argsBuck.current_directory
        ++ "` or any of its ancestors.") ∧
    (∃ r, resolve_analysis_directory id (some "/buckroot") argsBuck confTargets false
        = .ok r ∧
      r.directory.sharedBuilder = some (.fast "/buckroot" none none false)) ∧
    (∃ r, resolve_analysis_directory id none argsPlain confTargets false = .ok r ∧
      r.directory.sharedBuilder = some (.simple false)) :=
  ⟨((claim_C4_build_action id none argsBuck confTargets false (by decide)).1
      (by decide)).1 rfl,
   ((claim_C4_build_action id (some "/buckroot") argsBuck confTargets false
      (by decide)).1 (by decide)).2 "/buckroot" rfl,
   (claim_C4_build_action id none argsPlain confTargets false (by decide)).2
      (by decide)⟩

/-- Claim C7: if explicit source directories or targets were passed on the
invocation, the filter paths are exactly those — the source directories as
given and each target translated to its presumed target root — translated
to absolute paths relative to the original invocation directory; otherwise
the filter paths default to the local configuration root when one exists,
and to the empty filter (the full project) when none does. -/
theorem claim_C7_filter_paths (ptr : String → String) (arguments : Arguments)
    (configuration : Configuration) :
    ((listTruthy arguments.source_directories
        || listTruthy arguments.targets) = true →
      _resolve_filter_paths ptr arguments configuration =
        translate_paths
          (arguments.source_directories.getD []
            ++ (arguments.targets.getD []).map ptr)
          arguments.original_directory) ∧
    ((listTruthy arguments.source_directories
        || listTruthy arguments.targets) = false →
      (∀ r, configuration.local_configuration_root = some r →
        _resolve_filter_paths ptr arguments configuration =
          [translate_path arguments.original_directory r]) ∧
      (configuration.local_configuration_root = none →
        _resolve_filter_paths ptr arguments configuration = [])) := by
  constructor
  · intro h
    simp only [_resolve_filter_paths]
    rw [if_pos h]
    cases hs : listTruthy arguments.source_directories with
    | true =>
        cases ht : listTruthy arguments.targets with
        | true => simp
        | false => rw [getD_nil_of_not_listTruthy ht]; simp
    | false =>
        cases ht : listTruthy arguments.targets with
        | true => rw [getD_nil_of_not_listTruthy hs]; simp
        | false =>
            rw [getD_nil_of_not_listTruthy hs, getD_nil_of_not_listTruthy ht]
            simp
  · intro h
    have hs : listTruthy arguments.source_directories = false :=
      (Bool.or_eq_false_iff.mp h).1
    have ht : listTruthy arguments.targets = false :=
      (Bool.or_eq_false_iff.mp h).2
    constructor
    · intro r hr
      simp only [_resolve_filter_paths]
      rw [if_neg (by rw [hs, ht]; exact Bool.false_ne_true), hr]
      rfl
    · intro hr
      simp only [_resolve_filter_paths]
      rw [if_neg (by rw [hs, ht]; exact Bool.false_ne_true), hr]
      rfl

theorem claim_C7_witness :
    _resolve_filter_paths id argsExplicit confSingle
      = ["/repo/src", "//a:lib"] ∧
    _resolve_filter_paths id argsPlain confLocal = ["/repo/proj"] ∧
    _resolve_filter_paths id argsPlain confSingle = [] := by
  refine ⟨?_, ?_, ?_⟩
  · have h := (claim_C7_filter_paths id argsExplicit confSingle).1 (by decide)
    rw [h]; decide
  · have h := ((claim_C7_filter_paths id argsPlain confLocal).2
      (by decide)).1 "/repo/proj" rfl
    rw [h]; decide
  · have h := ((claim_C7_filter_paths id argsPlain confSingle).2
      (by decide)).2 rfl
    rw [h]

/-- Claim C8 (refuted — code bug): the claim says the loaded Configuration
is never mutated in place during the invocation.  But in the Direct branch
`resolve_analysis_directory` calls `source_directories.pop()` on the very
list object read from `configuration.source_directories`, so after the call
`configuration.source_directories` has lost its (only) element: with no
explicit directories or targets and `configuration.source_directories =
["src"]`, resolution returns Direct("src") and leaves
`configuration.source_directories = []`. -/
theorem claim_C8_configuration_mutated :
    resolve_analysis_directory id none argsPlain confSingle false =
      .ok ⟨.direct "src" [] [],
        { confSingle with source_directories := [] }⟩ ∧
    confSingle.source_directories = ["src"] ∧
    ({ confSingle with source_directories := ([] : List String) } :
      Configuration).source_directories ≠ confSingle.source_directories :=
  ⟨rfl, rfl, by decide⟩

/-! ### Claim C6: the log directory -/

theorem string_toList_append (a b : String) :
    (a ++ b).toList = a.toList ++ b.toList := rfl

theorem string_mk_toList (s : String) : String.mk s.toList = s := rfl

theorem toList_slash : ("/" : String).toList = ['/'] := rfl

theorem splitSlash_ne_nil (l : List Char) : splitSlash l ≠ [] := by
  cases l with
  | nil => exact fun h => List.noConfusion h
  | cons c rest =>
      simp only [splitSlash]
      cases h : splitSlash rest with
      | nil => simp
      | cons p ps =>
          by_cases hc : c = '/'
          · simp [hc]
          · simp [hc]

theorem splitSlash_append (a b : List Char) :
    splitSlash (a ++ '/' :: b) = splitSlash a ++ splitSlash b := by
  induction a with
  | nil =>
      show splitSlash ('/' :: b) = splitSlash [] ++ splitSlash b
      simp only [splitSlash]
      cases h : splitSlash b with
      | nil => exact absurd h (splitSlash_ne_nil b)
      | cons p ps => simp
  | cons c a' ih =>
      show splitSlash (c :: (a' ++ '/' :: b)) = splitSlash (c :: a') ++ splitSlash b
      simp only [splitSlash, ih]
      cases h : splitSlash a' with
      | nil => exact absurd h (splitSlash_ne_nil a')
      | cons p ps =>
          by_cases hc : c = '/'
          · simp [hc]
          · simp [hc]

theorem splitSlash_no_slash {l : List Char} (h : '/' ∉ l) : splitSlash l = [l] := by
  induction l with
  | nil => rfl
  | cons c rest ih =>
      have hc : c ≠ '/' := fun he => h (he ▸ List.mem_cons_self c rest)
      have hr : '/' ∉ rest := fun hm => h (List.mem_cons_of_mem c hm)
      simp only [splitSlash, ih hr]
      simp [hc]

theorem splitPath_append (a b : String) :
    splitPath (a ++ "/" ++ b) = splitPath a ++ splitPath b := by
  simp only [splitPath]
  rw [show (a ++ "/" ++ b).toList = a.toList ++ '/' :: b.toList by
    simp [string_toList_append, toList_slash]]
  rw [splitSlash_append, List.filter_append, List.map_append]

theorem splitPath_single {c : String} (h1 : c ≠ "") (h2 : '/' ∉ c.toList) :
    splitPath c = [c] := by
  have hne : c.toList ≠ [] :=
    fun he => h1 (string_eq_of_toList_eq (by rw [he]; rfl))
  simp only [splitPath, splitSlash_no_slash h2]
  cases hl : c.toList with
  | nil => exact absurd hl hne
  | cons x xs =>
      simp only [List.filter, List.isEmpty, Bool.not_false, List.map]
      rw [← hl, string_mk_toList]

theorem splitPath_joinSlash :
    ∀ {rest : List String}, (∀ c ∈ rest, c ≠ "" ∧ '/' ∉ c.toList) →
      splitPath (joinSlash rest) = rest
  | [], _ => rfl
  | [c], h => splitPath_single (h c (by simp)).1 (h c (by simp)).2
  | c :: c' :: r, h => by
      show splitPath (c ++ "/" ++ joinSlash (c' :: r)) = c :: c' :: r
      rw [splitPath_append, splitPath_single (h c (by simp)).1 (h c (by simp)).2,
        splitPath_joinSlash (fun x hx => h x (List.mem_cons_of_mem c hx))]
      rfl

theorem commonPrefixLen_append_self (l r : List String) :
    commonPrefixLen l (l ++ r) = l.length := by
  induction l with
  | nil => rfl
  | cons a as ih => simp [commonPrefixLen, ih]

theorem relpath_strict_descendant {lc root : String} {rest : List String}
    (hlc : splitPath lc = splitPath root ++ rest) (hrest : rest ≠ []) :
    relpath lc root = joinSlash rest := by
  have hempty : rest.isEmpty = false := by
    cases rest with
    | nil => exact absurd rfl hrest
    | cons x xs => rfl
  simp only [relpath, hlc, commonPrefixLen_append_self, Nat.sub_self,
    List.replicate_zero, List.nil_append, List.drop_left, hempty]
  rfl

theorem pyJoin_eq_append {a b : String} (hb : startswith b "/" = false)
    (ha1 : a.toList.isEmpty = false) (ha2 : endswith a "/" = false) :
    pyJoin a b = a ++ "/" ++ b := by
  unfold pyJoin
  rw [if_neg (by rw [hb]; exact Bool.false_ne_true),
    if_neg (by rw [ha1, ha2]; exact Bool.false_ne_true)]

theorem endswith_slash_eq_false {s : String}
    (h : s.toList.getLast? ≠ some '/') : endswith s "/" = false := by
  cases he : endswith s "/" with
  | false => rfl
  | true =>
      have hsuf : ("/" : String).toList <:+ s.toList := by
        simpa [endswith] using he
      obtain ⟨t, ht⟩ := hsuf
      exact absurd (by rw [← ht]; exact List.getLast?_concat t) h

theorem toList_isEmpty_append_slash (a b : String) :
    (a ++ "/" ++ b).toList.isEmpty = false := by
  rw [show (a ++ "/" ++ b).toList = a.toList ++ '/' :: b.toList by
    simp [string_toList_append, toList_slash]]
  cases ha : a.toList with
  | nil => rfl
  | cons x xs => rfl

theorem getLast_append_pyre (root : String) :
    (root ++ "/" ++ ".pyre").toList.getLast? = some 'e' := by
  rw [show (root ++ "/" ++ ".pyre").toList
      = (root.toList ++ ['/', '.', 'p', 'y', 'r']) ++ ['e'] by
    simp [string_toList_append, toList_slash]]
  exact List.getLast?_concat _

theorem joinSlash_startswith_slash {rest : List String} (hrest : rest ≠ [])
    (h : ∀ c ∈ rest, c ≠ "" ∧ '/' ∉ c.toList) :
    startswith (joinSlash rest) "/" = false := by
  cases rest with
  | nil => exact absurd rfl hrest
  | cons c r =>
      obtain ⟨hc1, hc2⟩ := h c (List.mem_cons_self c r)
      have htl : ∃ ch tl, (joinSlash (c :: r)).toList = ch :: tl ∧ ch ∈ c.toList := by
        cases r with
        | nil =>
            cases hone : c.toList with
            | nil => exact absurd (string_eq_of_toList_eq (by rw [hone]; rfl)) hc1
            | cons ch tl =>
                exact ⟨ch, tl, by simpa [joinSlash] using hone, by simp [hone]⟩
        | cons c' r' =>
            show ∃ ch tl, (c ++ "/" ++ joinSlash (c' :: r')).toList = ch :: tl ∧
              ch ∈ c.toList
            cases hone : c.toList with
            | nil => exact absurd (string_eq_of_toList_eq (by rw [hone]; rfl)) hc1
            | cons ch tl =>
                have hone' : c.data = ch :: tl := hone
                refine ⟨ch, tl ++ '/' :: (joinSlash (c' :: r')).toList, ?_,
                  by simp [hone]⟩
                simp [string_toList_append, toList_slash, hone, hone']
      obtain ⟨ch, tl, hsplit, hmem⟩ := htl
      have hch : (('/' : Char) == ch) = false :=
        beq_eq_false_iff_ne.mpr (fun he => hc2 (he ▸ hmem))
      have hsplit' : (joinSlash (c :: r)).data = ch :: tl := hsplit
      simp [startswith, toList_slash, hsplit, hsplit', List.isPrefixOf, hch]

theorem contains_after_makedirs (log : String) (existing : List String) :
    ((if existing.contains log then existing else log :: existing).contains log)
      = true := by
  by_cases h : existing.contains log
  · rw [if_pos h]; exact h
  · rw [if_neg h]
    simp [List.contains_cons]

/-- Claim C6: the log directory is derived as
`<root>/.pyre/<relative path from root to local root>`, with an empty
suffix when no local configuration is active; it is created if absent; and
— given the invariants (the local root lies strictly below the project
root, both normalized, with slash-free non-empty relative components
`rest`) — the derived path never escapes the `.pyre` namespace: its
components are exactly those of the root, then `".pyre"`, then `rest`. -/
theorem claim_C6_log_directory (root lc : String) (existing : List String)
    (rest : List String)
    (hroot1 : root.toList.isEmpty = false)
    (hroot2 : endswith root "/" = false)
    (hlc : splitPath lc = splitPath root ++ rest)
    (hrest : rest ≠ [])
    (hclean : ∀ c ∈ rest, c ≠ "" ∧ '/' ∉ c.toList) :
    (find_log_directory root (some lc) existing).1
        = root ++ "/" ++ ".pyre" ++ "/" ++ joinSlash rest ∧
    (find_log_directory root none existing).1 = root ++ "/" ++ ".pyre" ∧
    ((find_log_directory root (some lc) existing).2.contains
        (find_log_directory root (some lc) existing).1) = true ∧
    splitPath (find_log_directory root (some lc) existing).1
        = splitPath root ++ ".pyre" :: rest := by
  have hj1 : pyJoin root ".pyre" = root ++ "/" ++ ".pyre" :=
    pyJoin_eq_append rfl hroot1 hroot2
  have hrel : relpath lc root = joinSlash rest :=
    relpath_strict_descendant hlc hrest
  have hj2 : pyJoin (root ++ "/" ++ ".pyre") (joinSlash rest)
      = root ++ "/" ++ ".pyre" ++ "/" ++ joinSlash rest :=
    pyJoin_eq_append (joinSlash_startswith_slash hrest hclean)
      (toList_isEmpty_append_slash root ".pyre")
      (endswith_slash_eq_false (by rw [getLast_append_pyre]; decide))
  have hfst : (find_log_directory root (some lc) existing).1
      = root ++ "/" ++ ".pyre" ++ "/" ++ joinSlash rest := by
    simp only [find_log_directory, hj1, hrel, hj2]
  refine ⟨hfst, ?_, ?_, ?_⟩
  · simp only [find_log_directory, hj1]
  · simp only [find_log_directory]
    exact contains_after_makedirs _ _
  · rw [hfst, splitPath_append, splitPath_append,
      splitPath_joinSlash hclean,
      show splitPath ".pyre" = [".pyre"] from rfl]
    simp

theorem claim_C6_witness :
    (find_log_directory "/repo" (some "/repo/proj") []).1
        = "/repo" ++ "/" ++ ".pyre" ++ "/" ++ joinSlash ["proj"] ∧
    splitPath (find_log_directory "/repo" (some "/repo/proj") []).1
        = splitPath "/repo" ++ ".pyre" :: ["proj"] :=
  ⟨(claim_C6_log_directory "/repo" "/repo/proj" [] ["proj"] (by decide)
      (by decide) (by decide) (by decide) (by decide)).1,
   (claim_C6_log_directory "/repo" "/repo/proj" [] ["proj"] (by decide)
      (by decide) (by decide) (by decide) (by decide)).2.2.2⟩

end PyreClient
